import Mathlib

/-!
Verification development for the door-access controller sketch
(`Project/Project.ino`).

Modelling conventions:
* The EEPROM is a total map from addresses to byte values (`Nat → Nat`).
* `uint8_t` locals of the sketch are modelled with an explicit `% 256`
  exactly where the C code stores a wider expression into an 8-bit
  variable (`start`, `looping`, the count increment/decrement).
* The sketch's global `match` flag (set by `checkTwo` and read by the
  next call) is threaded explicitly: every comparator-dependent function
  takes the current flag and returns the updated flag.
* The `for (i = 1; i <= count; i++)` scans are modelled with a natural
  loop counter; this is exact for every count up to 254 (at count 255
  the C counter would wrap and the sketch would loop forever).
* `findIDSLOT` falls off the end of a non-void C function when no slot
  matches; that garbage return value is modelled as 0.  It is only ever
  consumed after a successful `findID`, where a matching slot is proved
  to exist.
* The control loop, door actuation and smoke polling are given a
  fuel-bounded event-trace semantics: each modelled routine returns the
  list of observable events (motor writes, sensor samples, store
  operations) it performs, and an outcome that distinguishes normal
  completion, the sketch's `while (1)` halts, and exhaustion of fuel
  inside one of its unbounded busy-waits.
-/

/-- A 4-byte credential identifier (`byte card[4]` in the sketch). -/
structure Card where
  b0 : Nat
  b1 : Nat
  b2 : Nat
  b3 : Nat
deriving DecidableEq

/-- EEPROM contents: address to byte value. -/
abbrev EEprom : Type := Nat → Nat

/-- `EEPROM.write(addr, v)`. -/
def ewrite (e : EEprom) (addr v : Nat) : EEprom :=
  fun x => if x = addr then v else e x

/-- `checkTwo(a, b)` from the sketch.  `m` is the value of the global
`match` flag on entry; the returned Bool is both the C return value and
the new value of the flag (the function returns `match` itself). -/
def checkTwo (m : Bool) (a b : Card) : Bool :=
  let m1 := if a.b0 ≠ 0 then true else m
  let m2 := if a.b0 ≠ b.b0 then false else m1
  let m3 := if a.b1 ≠ b.b1 then false else m2
  let m4 := if a.b2 ≠ b.b2 then false else m3
  if a.b3 ≠ b.b3 then false else m4

/-- `readID(number)`: reads slot `number`; `uint8_t start = number*4 + 2`. -/
def readID (e : EEprom) (number : Nat) : Card :=
  let start := (number * 4 + 2) % 256
  ⟨e start, e (start + 1), e (start + 2), e (start + 3)⟩

/-- The scan loop of `findID`: `i` is the current slot, the last argument
the number of slots still to inspect.  Returns (C return value, final
`match` flag). -/
def findFrom (e : EEprom) (a : Card) : Bool → Nat → Nat → Bool × Bool
  | m, _, 0 => (false, m)
  | m, i, rem + 1 =>
    let m1 := checkTwo m a (readID e i)
    if m1 then (true, m1) else findFrom e a m1 (i + 1) rem

/-- `findID(find)`: linear scan of slots `1..count` (count = byte 0). -/
def findID (m : Bool) (e : EEprom) (a : Card) : Bool × Bool :=
  findFrom e a m 1 (e 0)

/-- The scan loop of `findIDSLOT`; falling off the end (C undefined
behaviour) is modelled as slot 0. -/
def slotFrom (e : EEprom) (a : Card) : Bool → Nat → Nat → Nat × Bool
  | m, _, 0 => (0, m)
  | m, i, rem + 1 =>
    let m1 := checkTwo m a (readID e i)
    if m1 then (i, m1) else slotFrom e a m1 (i + 1) rem

/-- `findIDSLOT(find)`. -/
def findIDSLOT (m : Bool) (e : EEprom) (a : Card) : Nat × Bool :=
  slotFrom e a m 1 (e 0)

/-- The four `EEPROM.write(start + j, a[j])` stores of `writeID`. -/
def writeCard (e : EEprom) (start : Nat) (a : Card) : EEprom :=
  ewrite (ewrite (ewrite (ewrite e start a.b0) (start + 1) a.b1) (start + 2) a.b2)
    (start + 3) a.b3

/-- `writeID(a)`: append when `findID` fails.  `uint8_t start = num*4 + 6`
truncates mod 256; the count is written before the card bytes. -/
def writeID (m : Bool) (e : EEprom) (a : Card) : Bool × EEprom :=
  let f := findID m e a
  if f.1 then (f.2, e)
  else
    let num := e 0
    let start := (num * 4 + 6) % 256
    (f.2, writeCard (ewrite e 0 ((num + 1) % 256)) start a)

/-- The shift loop of `deleteID`:
`EEPROM.write(start + j, EEPROM.read(start + 4 + j))` for `j < looping`,
performed sequentially on the evolving EEPROM. -/
def shiftFrom (start : Nat) : EEprom → Nat → Nat → EEprom
  | e, _, 0 => e
  | e, j, rem + 1 => shiftFrom start (ewrite e (start + j) (e (start + 4 + j))) (j + 1) rem

/-- The zeroing loop of `deleteID`: four zero writes starting at `x`. -/
def zeroFrom : EEprom → Nat → Nat → EEprom
  | e, _, 0 => e
  | e, x, rem + 1 => zeroFrom (ewrite e x 0) (x + 1) rem

/-- `deleteID(a)`: when `findID` succeeds, shift the tail down one slot
and zero the vacated slot.  `uint8_t start = slot*4 + 2` and
`uint8_t looping = (num - slot)*4` truncate mod 256; `num--` on the
8-bit count is `(num + 255) % 256`. -/
def deleteID (m : Bool) (e : EEprom) (a : Card) : Bool × EEprom :=
  let f := findID m e a
  if f.1 then
    let num := e 0
    let sl := findIDSLOT f.2 e a
    let start := (sl.1 * 4 + 2) % 256
    let looping := ((num - sl.1) * 4) % 256
    let e1 := ewrite e 0 ((num + 255) % 256)
    (sl.2, zeroFrom (shiftFrom start e1 0 looping) (start + looping) 4)
  else (f.2, e)

/-- `isMaster(test)`: comparison of the scanned card with `masterCard`. -/
def isMaster (m : Bool) (test mc : Card) : Bool :=
  checkTwo m test mc

/-- Observable events of the control loop. -/
inductive Ev where
  | setOpen (b : Bool)
  | setClose (b : Bool)
  | setRc (b : Bool)
  | wait (ms : Nat)
  | sampleDist (v : Int)
  | sampleSmoke (v : Int)
  | pollScan (r : Option Card)
  | evAppend (c : Card)
  | evRemove (c : Card)
  | evGrant
  | evDeny
  | enterProgram
  | exitProgram
deriving DecidableEq

/-- The environment: streams of successive sensor readings, scan results
and button levels, indexed by how many times each input has been read. -/
structure World where
  dist : Nat → Int
  smoke : Nat → Int
  scan : Nat → Option Card
  openBtn : Nat → Bool
  wipeBtn : Nat → Bool
  wipeHold : Nat → Bool

/-- Controller state: `programMode`, the global `match` flag, the EEPROM,
the in-RAM `masterCard`, and read positions into the input streams. -/
structure St where
  pm : Bool
  mt : Bool
  ee : EEprom
  master : Card
  di : Nat
  si : Nat
  pi : Nat

/-- The `value > 14 && value < 20` clear-band test of the sketch. -/
def clearBandB (v : Int) : Bool :=
  decide (14 < v) && decide (v < 20)

/-- Event trace of `funopenDoor()`. -/
def funopenDoorTr : List Ev :=
  [.wait 2000, .setOpen true, .wait 10000, .setOpen false, .wait 2000]

/-- The clearance busy-wait of `closeDoor()`: sample the distance sensor
every 500 ms until a reading is in the clear band.  Returns the next
distance-stream index, the events, and whether a clear reading was found
before the fuel ran out. -/
def closeWait (w : World) : Nat → Nat → Nat × List Ev × Bool
  | di, 0 => (di, [], false)
  | di, fuel + 1 =>
    let v := w.dist di
    if clearBandB v then (di + 1, [.sampleDist v, .wait 500], true)
    else
      let r := closeWait w (di + 1) fuel
      (r.1, .sampleDist v :: .wait 500 :: r.2.1, r.2.2)

/-- Event trace of `closeDoor()`: lead delay, clearance wait, then the
close dwell.  The Bool records whether the dwell was reached. -/
def closeDoorTr (w : World) (di : Nat) (fuel : Nat) : Nat × List Ev × Bool :=
  let r := closeWait w di fuel
  if r.2.2 then
    (r.1, .wait 2000 :: r.2.1 ++ [.setClose true, .wait 10200, .setClose false], true)
  else (r.1, .wait 2000 :: r.2.1, false)

/-- The sampling loop of `checkSmoke()`: up to `rem` samples (the sketch
takes 4), stops at the first one above 100.  The Bool records a trip. -/
def checkSmokeTr (w : World) : Nat → Nat → Nat × List Ev × Bool
  | si, 0 => (si, [], false)
  | si, rem + 1 =>
    let v := w.smoke si
    if 100 < v then (si + 1, [.sampleSmoke v], true)
    else
      let r := checkSmokeTr w (si + 1) rem
      (r.1, .sampleSmoke v :: r.2.1, r.2.2)

/-- The in-loop wipe action: `EEPROM.write(1, 0)` only. -/
def runtimeWipe (e : EEprom) : EEprom :=
  ewrite e 1 0

/-- Outcome of the `do … while (!successRead)` polling loop. -/
inductive PollOut where
  | scanned (s : St) (c : Card)
  | halted (s : St)
  | stuck (s : St)

/-- One pass of the polling loop per fuel unit: `getID()`, `checkSmoke()`
(trip ⇒ forced open then `while (1)`), the manual-open button
(`funopenDoor; delay; closeDoor`), the wipe button (10 s confirmation,
then `EEPROM.write(1, 0); while (1)`), repeated until a scan succeeds. -/
def pollLoop (w : World) : St → Nat → PollOut × List Ev
  | s, 0 => (.stuck s, [])
  | s, fuel + 1 =>
    let sc := w.scan s.pi
    let sm := checkSmokeTr w s.si 4
    let s1 : St := { s with si := sm.1, pi := s.pi + 1 }
    let ev1 := Ev.pollScan sc :: sm.2.1
    if sm.2.2 then
      (.halted s1, ev1 ++ funopenDoorTr)
    else
      let cd := closeDoorTr w s1.di fuel
      let s2 : St := if w.openBtn s.pi then { s1 with di := cd.1 } else s1
      let ev2 := if w.openBtn s.pi then
          ev1 ++ funopenDoorTr ++ [Ev.wait 10000] ++ cd.2.1
        else ev1
      if w.openBtn s.pi && !cd.2.2 then (.stuck s2, ev2)
      else if w.wipeBtn s.pi then
        let ev3 := ev2 ++ [Ev.wait 10000]
        if w.wipeHold s.pi then
          (.halted { s2 with ee := runtimeWipe s2.ee }, ev3)
        else
          match sc with
          | some c => (.scanned s2 c, ev3)
          | none =>
            let r := pollLoop w s2 fuel
            (r.1, ev3 ++ r.2)
      else
        match sc with
        | some c => (.scanned s2 c, ev2)
        | none =>
          let r := pollLoop w s2 fuel
          (r.1, ev2 ++ r.2)

/-- Outcome of one full `loop()` iteration. -/
inductive LoopOut where
  | done (s : St)
  | halted (s : St)
  | stuck (s : St)

/-- Event trace of the access-grant branch: relay on, `funopenDoor`,
relay off, 10 s, `closeDoor`. -/
def grantTr (cdTr : List Ev) : List Ev :=
  Ev.evGrant :: Ev.setRc true :: funopenDoorTr ++ [Ev.setRc false, Ev.wait 10000] ++ cdTr

/-- The dispatch on a successfully scanned card (the tail of `loop()`),
threading the global `match` flag exactly as the sketch does:
`isMaster` first, then `findID`, then `deleteID`/`writeID` (each of
which re-runs `findID` internally). -/
def dispatch (w : World) (fuel : Nat) (s : St) (c : Card) : LoopOut × List Ev :=
  if s.pm then
    let m1 := isMaster s.mt c s.master
    if m1 then (.done { s with pm := false, mt := m1 }, [.exitProgram])
    else
      let f := findID m1 s.ee c
      if f.1 then
        let d := deleteID f.2 s.ee c
        (.done { s with mt := d.1, ee := d.2 }, [.evRemove c])
      else
        let wr := writeID f.2 s.ee c
        (.done { s with mt := wr.1, ee := wr.2 }, [.evAppend c])
  else
    let m1 := isMaster s.mt c s.master
    if m1 then (.done { s with pm := true, mt := m1 }, [.enterProgram])
    else
      let f := findID m1 s.ee c
      if f.1 then
        let cd := closeDoorTr w s.di fuel
        (if cd.2.2 then LoopOut.done { s with mt := f.2, di := cd.1 }
         else LoopOut.stuck { s with mt := f.2, di := cd.1 },
         grantTr cd.2.1)
      else (.done { s with mt := f.2 }, [.evDeny])

/-- Polling followed by dispatch. -/
def afterClose (w : World) (fuel : Nat) (s : St) : LoopOut × List Ev :=
  let p := pollLoop w s fuel
  match p.1 with
  | .halted s2 => (.halted s2, p.2)
  | .stuck s2 => (.stuck s2, p.2)
  | .scanned s2 c =>
    let d := dispatch w fuel s2 c
    (d.1, p.2 ++ d.2)

/-- One iteration of `loop()`: clear both motor outputs and the relay,
`checkClose()` (one distance reading; in-band ⇒ full `closeDoor()`),
then the polling loop and the dispatch. -/
def loopIter (w : World) (s : St) (fuel : Nat) : LoopOut × List Ev :=
  let v := w.dist s.di
  let s0 : St := { s with di := s.di + 1 }
  let pre : List Ev := [.setOpen false, .setClose false, .setRc false, .sampleDist v]
  if clearBandB v then
    let cd := closeDoorTr w s0.di fuel
    if cd.2.2 then
      let r := afterClose w fuel { s0 with di := cd.1 }
      (r.1, pre ++ cd.2.1 ++ r.2)
    else (.stuck { s0 with di := cd.1 }, pre ++ cd.2.1)
  else
    let r := afterClose w fuel s0
    (r.1, pre ++ r.2)

/-- Program-mode projection of a loop outcome. -/
def LoopOut.pmOf : LoopOut → Bool
  | .done s => s.pm
  | .halted s => s.pm
  | .stuck s => s.pm

/-- EEPROM projection of a loop outcome. -/
def LoopOut.eeOf : LoopOut → EEprom
  | .done s => s.ee
  | .halted s => s.ee
  | .stuck s => s.ee

/-- True for outcomes produced by one of the sketch's `while (1)` halts. -/
def LoopOut.isHalted : LoopOut → Bool
  | .halted _ => true
  | _ => false

/-- Motor-state transition induced by one event. -/
def stepMotors (p : Bool × Bool) (ev : Ev) : Bool × Bool :=
  match ev with
  | .setOpen b => (b, p.2)
  | .setClose b => (p.1, b)
  | _ => p

/-- Motor state after a trace. -/
def runMotors (p : Bool × Bool) : List Ev → Bool × Bool
  | [] => p
  | ev :: tr => runMotors (stepMotors p ev) tr

/-- Both-directions-never-energized check along a trace, including the
initial and final states. -/
def mutexFrom (p : Bool × Bool) : List Ev → Bool
  | [] => !(p.1 && p.2)
  | ev :: tr => !(p.1 && p.2) && mutexFrom (stepMotors p ev) tr

/-- True for events that do not touch a motor output. -/
def noMotorEv : Ev → Bool
  | .setOpen _ => false
  | .setClose _ => false
  | _ => true

/-- A concrete store with `n` records: count `n`, magic marker, master
bytes `9 9 9 9`, record `i` holding `⟨i % 256, 7, 7, 7⟩`. -/
def mkStore (n : Nat) : EEprom := fun x =>
  if x = 0 then n
  else if x = 1 then 143
  else if x < 6 then 9
  else if x < 4 * n + 6 then (if x % 4 = 2 then (x - 2) / 4 % 256 else 7)
  else 0

/-- A one-record store whose single record is `⟨5, 5, 5, 5⟩`. -/
def eC4 : EEprom := fun x =>
  if x = 0 then 1
  else if x = 1 then 143
  else if x < 6 then 9
  else if x < 10 then 5
  else 0

/-- A one-record store whose single record is `⟨0, 1, 2, 3⟩`. -/
def eC1 : EEprom := fun x =>
  if x = 0 then 1
  else if x = 1 then 143
  else if x = 7 then 1
  else if x = 8 then 2
  else if x = 9 then 3
  else 0

/-- A quiet environment: distance 30 (outside the clear band), smoke 0,
no scans, no buttons. -/
def wQuiet : World :=
  ⟨fun _ => 30, fun _ => 0, fun _ => none, fun _ => false, fun _ => false, fun _ => false⟩

/-- An environment whose distance sensor always reads 15 (in band). -/
def wClear : World :=
  ⟨fun _ => 15, fun _ => 0, fun _ => none, fun _ => false, fun _ => false, fun _ => false⟩

/-- An environment whose smoke sensor always reads 200 (above threshold). -/
def wSmoke : World :=
  ⟨fun _ => 30, fun _ => 200, fun _ => none, fun _ => false, fun _ => false, fun _ => false⟩

/-- A Normal-mode state whose master card has first byte zero. -/
def s0 : St :=
  { pm := false, mt := false, ee := fun x => if x = 1 then 143 else 0,
    master := ⟨0, 1, 2, 3⟩, di := 0, si := 0, pi := 0 }

/-- A Normal-mode state with an empty store and master `⟨1, 2, 3, 4⟩`. -/
def s1 : St :=
  { pm := false, mt := false, ee := fun x => if x = 1 then 143 else 0,
    master := ⟨1, 2, 3, 4⟩, di := 0, si := 0, pi := 0 }

/-- A trace keeps the two motor directions mutually exclusive when run
from the both-off state, and ends with both off. -/
def motorOk (tr : List Ev) : Prop :=
  mutexFrom (false, false) tr = true ∧ runMotors (false, false) tr = (false, false)

/-- True for events that are not store operations or an access grant. -/
def noStoreEv : Ev → Bool
  | .evAppend _ => false
  | .evRemove _ => false
  | .evGrant => false
  | _ => true

/-! ## Comparator lemmas -/

/-- `checkTwo` in closed form: the result is byte-wise equality guarded by
the entry flag when the candidate's first byte is zero. -/
theorem checkTwo_eq (m : Bool) (a b : Card) :
    checkTwo m a b = ((if a.b0 = 0 then m else true) && decide (a = b)) := by
  cases a with
  | mk a0 a1 a2 a3 =>
    cases b with
    | mk b0 b1 b2 b3 =>
      simp only [checkTwo, Card.mk.injEq]
      by_cases h0 : a0 = 0 <;> by_cases e0 : a0 = b0 <;> by_cases e1 : a1 = b1 <;>
        by_cases e2 : a2 = b2 <;> by_cases e3 : a3 = b3 <;>
        simp [h0, e0, e1, e2, e3, Bool.and_comm]

theorem checkTwo_of_ne_zero (m : Bool) (a b : Card) (h : a.b0 ≠ 0) :
    checkTwo m a b = decide (a = b) := by
  simp [checkTwo_eq, h]

theorem checkTwo_of_zero (m : Bool) (a b : Card) (h : a.b0 = 0) :
    checkTwo m a b = (m && decide (a = b)) := by
  simp [checkTwo_eq, h]

/-! ## Scan lemmas -/

/-- A zero-first-byte candidate can never match once the flag is false. -/
theorem findFrom_zero_false (e : EEprom) (a : Card) (h : a.b0 = 0) :
    ∀ rem i, findFrom e a false i rem = (false, false) := by
  intro rem
  induction rem with
  | zero => intro i; rfl
  | succ n ih =>
    intro i
    simp only [findFrom, checkTwo_of_zero _ _ _ h, Bool.false_and]
    exact ih (i + 1)

/-- If no inspected slot holds the candidate, the scan fails. -/
theorem findFrom_of_no_match (e : EEprom) (a : Card) :
    ∀ rem m i, (∀ j, i ≤ j → j < i + rem → readID e j ≠ a) →
      (findFrom e a m i rem).1 = false := by
  intro rem
  induction rem with
  | zero => intro m i _; rfl
  | succ n ih =>
    intro m i h
    have hne : readID e i ≠ a := h i (Nat.le_refl i) (by omega)
    have hc : checkTwo m a (readID e i) = false := by
      rw [checkTwo_eq]
      have hd : decide (a = readID e i) = false := by
        rw [decide_eq_false_iff_not]
        exact fun hx => hne hx.symm
      simp [hd]
    simp only [findFrom, hc, Bool.false_eq_true, if_false]
    exact ih false (i + 1) fun j h1 h2 => h j (by omega) (by omega)

/-- A successful scan for a nonzero-first-byte candidate: the scan and the
slot scan both stop at the first matching slot, leaving the flag true. -/
theorem findFrom_of_first_match (e : EEprom) (a : Card) (h0 : a.b0 ≠ 0) :
    ∀ rem m i k, i ≤ k → k < i + rem → readID e k = a →
      (∀ j, i ≤ j → j < k → readID e j ≠ a) →
      findFrom e a m i rem = (true, true) ∧ slotFrom e a m i rem = (k, true) := by
  intro rem
  induction rem with
  | zero => intro m i k h1 h2 _ _; omega
  | succ n ih =>
    intro m i k h1 h2 h3 h4
    by_cases hik : i = k
    · subst hik
      have hc : checkTwo m a (readID e i) = true := by
        rw [checkTwo_of_ne_zero _ _ _ h0, h3, decide_eq_true_eq]
      constructor
      · simp [findFrom, hc]
      · simp [slotFrom, hc]
    · have hne : readID e i ≠ a := h4 i (Nat.le_refl i) (by omega)
      have hc : checkTwo m a (readID e i) = false := by
        rw [checkTwo_of_ne_zero _ _ _ h0, decide_eq_false_iff_not]
        exact fun hx => hne hx.symm
      have ihh := ih false (i + 1) k (by omega) (by omega) h3
        (fun j hj1 hj2 => h4 j (by omega) hj2)
      constructor
      · simp only [findFrom, hc, Bool.false_eq_true, if_false]
        exact ihh.1
      · simp only [slotFrom, hc, Bool.false_eq_true, if_false]
        exact ihh.2

/-- A successful scan for a nonzero-first-byte candidate yields a first
matching slot. -/
theorem findFrom_true_exists (e : EEprom) (a : Card) (h0 : a.b0 ≠ 0) :
    ∀ rem m i, (findFrom e a m i rem).1 = true →
      ∃ k, i ≤ k ∧ k < i + rem ∧ readID e k = a ∧
        ∀ j, i ≤ j → j < k → readID e j ≠ a := by
  intro rem
  induction rem with
  | zero => intro m i h; simp [findFrom] at h
  | succ n ih =>
    intro m i h
    by_cases hd : readID e i = a
    · exact ⟨i, Nat.le_refl i, by omega, hd, fun j hj1 hj2 => by omega⟩
    · have hc : checkTwo m a (readID e i) = false := by
        rw [checkTwo_of_ne_zero _ _ _ h0, decide_eq_false_iff_not]
        exact fun hx => hd hx.symm
      simp only [findFrom, hc, Bool.false_eq_true, if_false] at h
      obtain ⟨k, hk1, hk2, hk3, hk4⟩ := ih false (i + 1) h
      refine ⟨k, by omega, by omega, hk3, fun j hj1 hj2 => ?_⟩
      by_cases hij : j = i
      · subst hij; exact hd
      · exact hk4 j (by omega) hj2

/-- A zero-first-byte candidate is found only when the flag was true on
entry and the first inspected slot holds the candidate. -/
theorem findFrom_zero_true (e : EEprom) (a : Card) (h0 : a.b0 = 0) :
    ∀ rem m i, (findFrom e a m i rem).1 = true →
      m = true ∧ readID e i = a ∧ 1 ≤ rem := by
  intro rem
  induction rem with
  | zero => intro m i h; simp [findFrom] at h
  | succ n _ =>
    intro m i h
    by_cases hc : checkTwo m a (readID e i) = true
    · have hz := hc
      rw [checkTwo_of_zero _ _ _ h0, Bool.and_eq_true, decide_eq_true_eq] at hz
      exact ⟨hz.1, hz.2.symm, by omega⟩
    · have hc2 : checkTwo m a (readID e i) = false := by
        cases hcc : checkTwo m a (readID e i)
        · rfl
        · exact absurd hcc hc
      simp only [findFrom, hc2, Bool.false_eq_true, if_false] at h
      have hcz := hc2
      rw [checkTwo_of_zero _ _ _ h0] at hcz
      rw [findFrom_zero_false e a h0 n (i + 1)] at h
      exact absurd h (by simp)

/-- Combined success characterisation of `findID` and `findIDSLOT`: a
successful lookup identifies a first matching slot, and the re-scan that
`deleteID` performs with the flag left true returns that slot. -/
theorem findID_true_first_slot (m : Bool) (e : EEprom) (a : Card)
    (h : (findID m e a).1 = true) :
    ∃ s, 1 ≤ s ∧ s ≤ e 0 ∧ readID e s = a ∧
      (∀ j, 1 ≤ j → j < s → readID e j ≠ a) ∧
      findID m e a = (true, true) ∧ findIDSLOT true e a = (s, true) := by
  by_cases h0 : a.b0 = 0
  · obtain ⟨hm, ha, hrem⟩ := findFrom_zero_true e a h0 (e 0) m 1 h
    subst hm
    obtain ⟨n, hn⟩ : ∃ n, e 0 = n + 1 := ⟨e 0 - 1, by omega⟩
    have hc : checkTwo true a (readID e 1) = true := by
      rw [checkTwo_of_zero _ _ _ h0, ha, Bool.true_and, decide_eq_true_eq]
    refine ⟨1, Nat.le_refl 1, by omega, ha, fun j hj1 hj2 => by omega, ?_, ?_⟩
    · unfold findID
      rw [hn]
      simp [findFrom, hc]
    · unfold findIDSLOT
      rw [hn]
      simp [slotFrom, hc]
  · obtain ⟨k, hk1, hk2, hk3, hk4⟩ := findFrom_true_exists e a h0 (e 0) m 1 h
    have h1 := findFrom_of_first_match e a h0 (e 0) m 1 k hk1 hk2 hk3 hk4
    have h2 := findFrom_of_first_match e a h0 (e 0) true 1 k hk1 hk2 hk3 hk4
    exact ⟨k, hk1, by omega, hk3, hk4, h1.1, h2.2⟩

/-! ## Pointwise descriptions of the EEPROM mutators -/

theorem ewrite_apply (e : EEprom) (addr v x : Nat) :
    ewrite e addr v x = if x = addr then v else e x := rfl

theorem writeCard_apply (e : EEprom) (st : Nat) (a : Card) (x : Nat) :
    writeCard e st a x =
      if x = st + 3 then a.b3
      else if x = st + 2 then a.b2
      else if x = st + 1 then a.b1
      else if x = st then a.b0
      else e x := rfl

theorem shiftFrom_apply (st : Nat) :
    ∀ rem (e : EEprom) (j x : Nat),
      shiftFrom st e j rem x =
        if st + j ≤ x ∧ x < st + j + rem then e (x + 4) else e x := by
  intro rem
  induction rem with
  | zero =>
    intro e j x
    simp only [shiftFrom]
    rw [if_neg (by omega)]
  | succ n ih =>
    intro e j x
    simp only [shiftFrom]
    rw [ih]
    by_cases h1 : st + (j + 1) ≤ x ∧ x < st + (j + 1) + n
    · rw [if_pos h1, if_pos (by omega)]
      simp only [ewrite]
      rw [if_neg (by omega)]
    · rw [if_neg h1]
      by_cases h2 : x = st + j
      · simp only [ewrite]
        rw [if_pos h2, if_pos (by omega)]
        congr 1
        omega
      · simp only [ewrite]
        rw [if_neg h2, if_neg (by omega)]

theorem zeroFrom_apply :
    ∀ rem (e : EEprom) (x0 x : Nat),
      zeroFrom e x0 rem x = if x0 ≤ x ∧ x < x0 + rem then 0 else e x := by
  intro rem
  induction rem with
  | zero =>
    intro e x0 x
    simp only [zeroFrom]
    rw [if_neg (by omega)]
  | succ n ih =>
    intro e x0 x
    simp only [zeroFrom]
    rw [ih]
    by_cases h1 : x0 + 1 ≤ x ∧ x < x0 + 1 + n
    · rw [if_pos h1, if_pos (by omega)]
    · rw [if_neg h1]
      simp only [ewrite]
      by_cases h2 : x = x0
      · rw [if_pos h2, if_pos (by omega)]
      · rw [if_neg h2, if_neg (by omega)]

/-- `writeID` on a store that does not contain the id, unfolded. -/
theorem writeID_eq_of_not_found (m : Bool) (e : EEprom) (a : Card)
    (h : (findID m e a).1 = false) :
    writeID m e a = ((findID m e a).2,
      writeCard (ewrite e 0 ((e 0 + 1) % 256)) ((e 0 * 4 + 6) % 256) a) := by
  simp only [writeID, h, Bool.false_eq_true, if_false]

/-- `deleteID` when the id is not found: the EEPROM is untouched. -/
theorem deleteID_eq_of_not_found (m : Bool) (e : EEprom) (a : Card)
    (h : (findID m e a).1 = false) :
    deleteID m e a = ((findID m e a).2, e) := by
  simp only [deleteID, h, Bool.false_eq_true, if_false]

/-- `deleteID` on a successful lookup, unfolded to the three writes. -/
theorem deleteID_eq_of_found (m : Bool) (e : EEprom) (a : Card) (s : Nat)
    (hff : findID m e a = (true, true))
    (hsl : findIDSLOT true e a = (s, true)) :
    deleteID m e a = (true,
      zeroFrom (shiftFrom ((s * 4 + 2) % 256) (ewrite e 0 ((e 0 + 255) % 256)) 0
        (((e 0 - s) * 4) % 256)) ((s * 4 + 2) % 256 + ((e 0 - s) * 4) % 256) 4) := by
  simp only [deleteID, hff, hsl]
  rw [if_pos trivial]

/-! ## C1: zero-first-byte candidates -/

/-- C1 (amended): a candidate id whose first byte is zero is reported as
no-match by `checkTwo`, fails `findID`, and is not recognised as the
master credential, provided the comparator's persistent `match` flag is
false on entry (its boot value, and its value after any failed
comparison). -/
theorem c1_zero_first_byte_flag_false (a b : Card) (e : EEprom) (h : a.b0 = 0) :
    checkTwo false a b = false ∧ (findID false e a).1 = false ∧
      isMaster false a b = false := by
  refine ⟨?_, ?_, ?_⟩
  · rw [checkTwo_of_zero _ _ _ h, Bool.false_and]
  · unfold findID
    rw [findFrom_zero_false e a h]
  · unfold isMaster
    rw [checkTwo_of_zero _ _ _ h, Bool.false_and]

/-- C1 witness: the amended statement at a concrete zero-first-byte id
and a concrete two-record store. -/
theorem c1_witness :
    (⟨0, 5, 6, 7⟩ : Card).b0 = 0 ∧
    (checkTwo false ⟨0, 5, 6, 7⟩ ⟨0, 5, 6, 7⟩ = false ∧
      (findID false (mkStore 2) ⟨0, 5, 6, 7⟩).1 = false ∧
      isMaster false ⟨0, 5, 6, 7⟩ ⟨0, 5, 6, 7⟩ = false) :=
  ⟨rfl, c1_zero_first_byte_flag_false ⟨0, 5, 6, 7⟩ ⟨0, 5, 6, 7⟩ (mkStore 2) rfl⟩

/-- C1 counterexample: the claim as stated ("regardless of any
comparisons performed earlier") is false.  When the global `match` flag
was left true by an earlier successful comparison, a zero-first-byte
candidate that is byte-equal to the compared value is reported as a
match, and `findID` finds a zero-first-byte id stored in slot 1. -/
theorem c1_counterexample :
    checkTwo true ⟨0, 1, 2, 3⟩ ⟨0, 1, 2, 3⟩ = true ∧
    readID eC1 1 = ⟨0, 1, 2, 3⟩ ∧
    (findID true eC1 ⟨0, 1, 2, 3⟩).1 = true ∧
    isMaster true ⟨0, 1, 2, 3⟩ ⟨0, 1, 2, 3⟩ = true := by
  decide

/-! ## C2: no capacity check in writeID -/

/-- C2: the code has no capacity check at all.  At count 63 the 8-bit
slot-start computation `uint8_t start = num*4 + 6` wraps from 258 to 2,
so appending a fresh id writes its four bytes over the master credential
(addresses 2-5) and bumps the count to 64 — instead of failing with
StorageFull and writing nothing outside the record region. -/
theorem c2_append_overruns_master :
    (findID false (mkStore 63) ⟨1, 2, 3, 4⟩).1 = false ∧
    (writeID false (mkStore 63) ⟨1, 2, 3, 4⟩).2 2 = 1 ∧
    (writeID false (mkStore 63) ⟨1, 2, 3, 4⟩).2 3 = 2 ∧
    (writeID false (mkStore 63) ⟨1, 2, 3, 4⟩).2 4 = 3 ∧
    (writeID false (mkStore 63) ⟨1, 2, 3, 4⟩).2 5 = 4 ∧
    (writeID false (mkStore 63) ⟨1, 2, 3, 4⟩).2 0 = 64 ∧
    mkStore 63 2 = 9 ∧ mkStore 63 0 = 63 := by
  decide

/-- Pointwise description of a successful `deleteID` on a store whose
count stays below the 8-bit address wrap (count ≤ 63): the count byte is
decremented, the bytes of slots `s+1..count` move down four addresses,
and the four bytes of the vacated tail slot are zeroed. -/
theorem deleteID_found_apply (m : Bool) (e : EEprom) (a : Card) (s : Nat)
    (hff : findID m e a = (true, true))
    (hsl : findIDSLOT true e a = (s, true))
    (hs1 : 1 ≤ s) (hsn : s ≤ e 0) (hcap : e 0 ≤ 63) (x : Nat) :
    (deleteID m e a).2 x =
      if 4 * e 0 + 2 ≤ x ∧ x < 4 * e 0 + 6 then 0
      else if 4 * s + 2 ≤ x ∧ x < 4 * e 0 + 2 then e (x + 4)
      else if x = 0 then e 0 - 1
      else e x := by
  have h1 : (s * 4 + 2) % 256 = 4 * s + 2 := by
    rw [Nat.mod_eq_of_lt (by omega)]
    ring
  have h2 : ((e 0 - s) * 4) % 256 = 4 * (e 0 - s) := by
    rw [Nat.mod_eq_of_lt (by omega)]
    ring
  have h3 : (e 0 + 255) % 256 = e 0 - 1 := by omega
  rw [deleteID_eq_of_found m e a s hff hsl]
  simp only [h1, h2, h3]
  rw [zeroFrom_apply, shiftFrom_apply]
  simp only [ewrite_apply]
  split_ifs <;> first | rfl | omega | exact (by assumption : False).elim

/-! ## C3: RemoveAt semantics -/

/-- C3 (amended to stores whose count is at most 63, below the 8-bit
address wrap): if `findID` fails, `deleteID` leaves the EEPROM — count
and every record — unchanged; if `findID` succeeds then there is a first
matching slot `s`, and `deleteID` decrements the count, keeps slots
below `s` unchanged, shifts slots `s+1..count` down into `s..count-1`
preserving their relative order, and zeroes the vacated tail slot. -/
theorem c3_removeAt (m : Bool) (e : EEprom) (a : Card) (hcap : e 0 ≤ 63) :
    ((findID m e a).1 = false → (deleteID m e a).2 = e) ∧
    ((findID m e a).1 = true →
      ∃ s, 1 ≤ s ∧ s ≤ e 0 ∧ readID e s = a ∧
        (∀ j, 1 ≤ j → j < s → readID e j ≠ a) ∧
        (deleteID m e a).2 0 = e 0 - 1 ∧
        (∀ i, 1 ≤ i → i < s → readID (deleteID m e a).2 i = readID e i) ∧
        (∀ i, s ≤ i → i + 1 ≤ e 0 → readID (deleteID m e a).2 i = readID e (i + 1)) ∧
        readID (deleteID m e a).2 (e 0) = ⟨0, 0, 0, 0⟩) := by
  constructor
  · intro h
    rw [deleteID_eq_of_not_found m e a h]
  · intro h
    obtain ⟨s, hs1, hsn, hsa, hmin, hff, hsl⟩ := findID_true_first_slot m e a h
    have hD := deleteID_found_apply m e a s hff hsl hs1 hsn hcap
    refine ⟨s, hs1, hsn, hsa, hmin, ?_, ?_, ?_, ?_⟩
    · rw [hD 0, if_neg (by omega), if_neg (by omega), if_pos rfl]
    · intro i hi1 his
      have hm4 : (i * 4 + 2) % 256 = i * 4 + 2 := Nat.mod_eq_of_lt (by omega)
      simp only [readID, hm4, Card.mk.injEq]
      refine ⟨?_, ?_, ?_, ?_⟩ <;>
        rw [hD _, if_neg (by omega), if_neg (by omega), if_neg (by omega)]
    · intro i hsi hin
      have hm4 : (i * 4 + 2) % 256 = i * 4 + 2 := Nat.mod_eq_of_lt (by omega)
      have hm5 : ((i + 1) * 4 + 2) % 256 = (i + 1) * 4 + 2 := Nat.mod_eq_of_lt (by omega)
      simp only [readID, hm4, hm5, Card.mk.injEq]
      refine ⟨?_, ?_, ?_, ?_⟩ <;>
        (rw [hD _, if_neg (by omega), if_pos (by omega)]; congr 1; omega)
    · have hm4 : (e 0 * 4 + 2) % 256 = e 0 * 4 + 2 := Nat.mod_eq_of_lt (by omega)
      simp only [readID, hm4, Card.mk.injEq]
      refine ⟨?_, ?_, ?_, ?_⟩ <;> rw [hD _, if_pos (by omega)]

/-- C3 counterexample: on a store with 64 records the claim as stated
fails.  With the id that slot 64's wrapped address resolves to (the
master bytes), `findID` succeeds, but `deleteID` zeroes the master bytes
2-5 instead of the vacated tail slot: address 258 (first byte of the
real slot 64) keeps its old value 64 instead of being zeroed. -/
theorem c3_counterexample :
    (findID false (mkStore 64) ⟨9, 9, 9, 9⟩).1 = true ∧
    (deleteID false (mkStore 64) ⟨9, 9, 9, 9⟩).2 0 = 63 ∧
    (deleteID false (mkStore 64) ⟨9, 9, 9, 9⟩).2 258 = 64 ∧
    (deleteID false (mkStore 64) ⟨9, 9, 9, 9⟩).2 2 = 0 ∧
    mkStore 64 258 = 64 ∧ mkStore 64 2 = 9 := by
  decide

/-- C3 witness: the amended statement applied to the concrete store
`mkStore 3`. -/
theorem c3_witness :
    (mkStore 3) 0 ≤ 63 ∧
    (((findID false (mkStore 3) ⟨2, 7, 7, 7⟩).1 = false →
        (deleteID false (mkStore 3) ⟨2, 7, 7, 7⟩).2 = mkStore 3) ∧
      ((findID false (mkStore 3) ⟨2, 7, 7, 7⟩).1 = true →
        ∃ s, 1 ≤ s ∧ s ≤ (mkStore 3) 0 ∧ readID (mkStore 3) s = ⟨2, 7, 7, 7⟩ ∧
          (∀ j, 1 ≤ j → j < s → readID (mkStore 3) j ≠ ⟨2, 7, 7, 7⟩) ∧
          (deleteID false (mkStore 3) ⟨2, 7, 7, 7⟩).2 0 = (mkStore 3) 0 - 1 ∧
          (∀ i, 1 ≤ i → i < s →
            readID (deleteID false (mkStore 3) ⟨2, 7, 7, 7⟩).2 i = readID (mkStore 3) i) ∧
          (∀ i, s ≤ i → i + 1 ≤ (mkStore 3) 0 →
            readID (deleteID false (mkStore 3) ⟨2, 7, 7, 7⟩).2 i =
              readID (mkStore 3) (i + 1)) ∧
          readID (deleteID false (mkStore 3) ⟨2, 7, 7, 7⟩).2 ((mkStore 3) 0) =
            ⟨0, 0, 0, 0⟩)) :=
  ⟨by decide, c3_removeAt false (mkStore 3) ⟨2, 7, 7, 7⟩ (by decide)⟩

/-- Converse of the scan: a failed scan means no inspected slot holds a
nonzero-first-byte candidate. -/
theorem findFrom_false_no_match (e : EEprom) (a : Card) (h0 : a.b0 ≠ 0) :
    ∀ rem m i, (findFrom e a m i rem).1 = false →
      ∀ j, i ≤ j → j < i + rem → readID e j ≠ a := by
  intro rem
  induction rem with
  | zero => intro m i _ j h1 h2; omega
  | succ n ih =>
    intro m i h j h1 h2
    by_cases hd : readID e i = a
    · have hc : checkTwo m a (readID e i) = true := by
        rw [checkTwo_of_ne_zero _ _ _ h0, hd, decide_eq_true_eq]
      simp [findFrom, hc] at h
    · have hc : checkTwo m a (readID e i) = false := by
        rw [checkTwo_of_ne_zero _ _ _ h0, decide_eq_false_iff_not]
        exact fun hx => hd hx.symm
      simp only [findFrom, hc, Bool.false_eq_true, if_false] at h
      by_cases hij : j = i
      · subst hij; exact hd
      · exact ih false (i + 1) h j (by omega) (by omega)

/-- Pointwise description of `writeID` on a store that does not contain
the id, for counts below the 8-bit address wrap (count ≤ 62): the count
byte becomes `count + 1` and the four id bytes land in slot `count+1`. -/
theorem writeID_not_found_apply (m : Bool) (e : EEprom) (a : Card)
    (h : (findID m e a).1 = false) (hcap : e 0 ≤ 62) (x : Nat) :
    (writeID m e a).2 x =
      if x = 4 * e 0 + 6 then a.b0
      else if x = 4 * e 0 + 7 then a.b1
      else if x = 4 * e 0 + 8 then a.b2
      else if x = 4 * e 0 + 9 then a.b3
      else if x = 0 then e 0 + 1
      else e x := by
  have h1 : (e 0 * 4 + 6) % 256 = 4 * e 0 + 6 := by
    rw [Nat.mod_eq_of_lt (by omega)]
    ring
  have h2 : (e 0 + 1) % 256 = e 0 + 1 := Nat.mod_eq_of_lt (by omega)
  rw [writeID_eq_of_not_found m e a h]
  simp only [writeCard_apply, ewrite_apply, h1, h2]
  split_ifs <;> first | rfl | omega

/-! ## C4: Append then RemoveAt -/

/-- C4 (amended to ids with a nonzero first byte, on stores with count
at most 62): `writeID` of a fresh id followed by `deleteID` of the same
id restores the original count and leaves every pre-existing record in
its original slot, whatever the comparator flag is at each call. -/
theorem c4_append_remove (m m2 : Bool) (e : EEprom) (a : Card)
    (h0 : a.b0 ≠ 0) (hcap : e 0 ≤ 62) (hnew : (findID m e a).1 = false) :
    (deleteID m2 (writeID m e a).2 a).2 0 = e 0 ∧
    ∀ i, 1 ≤ i → i ≤ e 0 →
      readID (deleteID m2 (writeID m e a).2 a).2 i = readID e i := by
  have hW := writeID_not_found_apply m e a hnew hcap
  set e1 := (writeID m e a).2 with he1
  have hcount : e1 0 = e 0 + 1 := by
    rw [hW 0, if_neg (by omega), if_neg (by omega), if_neg (by omega), if_neg (by omega),
      if_pos rfl]
  have hkeep : ∀ i, 1 ≤ i → i ≤ e 0 → readID e1 i = readID e i := by
    intro i hi1 hin
    have hm4 : (i * 4 + 2) % 256 = i * 4 + 2 := Nat.mod_eq_of_lt (by omega)
    simp only [readID, hm4, Card.mk.injEq]
    refine ⟨?_, ?_, ?_, ?_⟩ <;>
      rw [hW _, if_neg (by omega), if_neg (by omega), if_neg (by omega), if_neg (by omega),
        if_neg (by omega)]
  have hnewslot : readID e1 (e 0 + 1) = a := by
    have hm4 : ((e 0 + 1) * 4 + 2) % 256 = 4 * e 0 + 6 := by
      rw [Nat.mod_eq_of_lt (by omega)]
      ring
    have hb0 : e1 (4 * e 0 + 6) = a.b0 := by
      rw [hW _, if_pos rfl]
    have hb1 : e1 (4 * e 0 + 6 + 1) = a.b1 := by
      rw [hW _, if_neg (by omega), if_pos (by omega)]
    have hb2 : e1 (4 * e 0 + 6 + 2) = a.b2 := by
      rw [hW _, if_neg (by omega), if_neg (by omega), if_pos (by omega)]
    have hb3 : e1 (4 * e 0 + 6 + 3) = a.b3 := by
      rw [hW _, if_neg (by omega), if_neg (by omega), if_neg (by omega), if_pos (by omega)]
    simp only [readID, hm4]
    rw [hb0, hb1, hb2, hb3]
  have hnoM : ∀ j, 1 ≤ j → j < 1 + e 0 → readID e j ≠ a :=
    findFrom_false_no_match e a h0 (e 0) m 1 hnew
  have hnoM1 : ∀ j, 1 ≤ j → j < e 0 + 1 → readID e1 j ≠ a := by
    intro j hj1 hj2
    rw [hkeep j hj1 (by omega)]
    exact hnoM j hj1 (by omega)
  have hfm := findFrom_of_first_match e1 a h0 (e1 0) m2 1 (e 0 + 1)
    (by omega) (by omega) hnewslot hnoM1
  have hff : findID m2 e1 a = (true, true) := hfm.1
  have hfms := findFrom_of_first_match e1 a h0 (e1 0) true 1 (e 0 + 1)
    (by omega) (by omega) hnewslot hnoM1
  have hsl : findIDSLOT true e1 a = (e 0 + 1, true) := hfms.2
  have hD := deleteID_found_apply m2 e1 a (e 0 + 1) hff hsl (by omega)
    (by omega) (by omega)
  rw [hcount] at hD
  constructor
  · rw [hD 0, if_neg (by omega), if_neg (by omega), if_pos rfl]
    omega
  · intro i hi1 hin
    have hm4 : (i * 4 + 2) % 256 = i * 4 + 2 := Nat.mod_eq_of_lt (by omega)
    have hki := hkeep i hi1 hin
    simp only [readID, hm4, Card.mk.injEq] at hki ⊢
    refine ⟨?_, ?_, ?_, ?_⟩ <;>
      (rw [hD _, if_neg (by omega), if_neg (by omega), if_neg (by omega)]
       first
         | exact hki.1
         | exact hki.2.1
         | exact hki.2.2.1
         | exact hki.2.2.2)

/-- C4 counterexample: for a zero-first-byte id the round trip does not
restore the count.  On the one-record store `eC4`, appending `⟨0,1,2,3⟩`
(which `findID` cannot see) and then removing it leaves count 2, because
the removal's lookup also fails on the zero first byte. -/
theorem c4_counterexample :
    eC4 0 = 1 ∧
    (findID false eC4 ⟨0, 1, 2, 3⟩).1 = false ∧
    (deleteID (writeID false eC4 ⟨0, 1, 2, 3⟩).1 (writeID false eC4 ⟨0, 1, 2, 3⟩).2
        ⟨0, 1, 2, 3⟩).2 0 = 2 := by
  decide

/-- C4 witness: the amended statement at the concrete store `mkStore 3`
and the fresh id `⟨77, 1, 1, 1⟩`. -/
theorem c4_witness :
    ((⟨77, 1, 1, 1⟩ : Card).b0 ≠ 0 ∧ (mkStore 3) 0 ≤ 62 ∧
      (findID false (mkStore 3) ⟨77, 1, 1, 1⟩).1 = false) ∧
    ((deleteID false (writeID false (mkStore 3) ⟨77, 1, 1, 1⟩).2 ⟨77, 1, 1, 1⟩).2 0 =
        (mkStore 3) 0 ∧
      ∀ i, 1 ≤ i → i ≤ (mkStore 3) 0 →
        readID (deleteID false (writeID false (mkStore 3) ⟨77, 1, 1, 1⟩).2
          ⟨77, 1, 1, 1⟩).2 i = readID (mkStore 3) i) :=
  ⟨⟨by decide, by decide, by decide⟩,
    c4_append_remove false false (mkStore 3) ⟨77, 1, 1, 1⟩ (by decide) (by decide) (by decide)⟩

/-! ## C5: master-credential bytes are preserved -/

/-- C5 (amended): storage bytes 2-5 (the persisted master credential)
are untouched by `writeID` on stores with count at most 62, by
`deleteID` on stores with count at most 63, by the access-grant branch
of the dispatch (which performs no storage write at all), and by the
runtime wipe, which writes only the defined-flag byte 1. -/
theorem c5_master_bytes_preserved :
    (∀ m e a x, e 0 ≤ 62 → 2 ≤ x → x ≤ 5 → (writeID m e a).2 x = e x) ∧
    (∀ m e a x, e 0 ≤ 63 → 2 ≤ x → x ≤ 5 → (deleteID m e a).2 x = e x) ∧
    (∀ e x, x ≠ 1 → runtimeWipe e x = e x) ∧
    (∀ e, runtimeWipe e 1 = 0) ∧
    (∀ w fuel s c, s.pm = false → isMaster s.mt c s.master = false →
      LoopOut.eeOf (dispatch w fuel s c).1 = s.ee) := by
  refine ⟨?_, ?_, ?_, ?_, ?_⟩
  · intro m e a x hcap hx2 hx5
    by_cases hf : (findID m e a).1 = true
    · simp [writeID, hf]
    · have hf2 : (findID m e a).1 = false := by
        cases hff : (findID m e a).1
        · rfl
        · exact absurd hff hf
      rw [writeID_not_found_apply m e a hf2 hcap x, if_neg (by omega), if_neg (by omega),
        if_neg (by omega), if_neg (by omega), if_neg (by omega)]
  · intro m e a x hcap hx2 hx5
    by_cases hf : (findID m e a).1 = true
    · obtain ⟨s, hs1, hsn, _, _, hff, hsl⟩ := findID_true_first_slot m e a hf
      rw [deleteID_found_apply m e a s hff hsl hs1 hsn hcap x, if_neg (by omega),
        if_neg (by omega), if_neg (by omega)]
    · have hf2 : (findID m e a).1 = false := by
        cases hff : (findID m e a).1
        · rfl
        · exact absurd hff hf
      rw [deleteID_eq_of_not_found m e a hf2]
  · intro e x hx
    simp only [runtimeWipe, ewrite_apply]
    rw [if_neg hx]
  · intro e
    simp [runtimeWipe, ewrite_apply]
  · intro w fuel s c hpm hm
    simp only [dispatch, hpm, hm, Bool.false_eq_true, if_false]
    by_cases hf : (findID false s.ee c).1 = true
    · simp only [hf, if_true]
      cases hcd : (closeDoorTr w s.di fuel).2.2 <;> simp [hcd, LoopOut.eeOf]
    · simp [hf, LoopOut.eeOf]

/-- C5 counterexample: `writeID` — a steady-state Append — modifies a
master-credential byte.  On the 63-record store, appending a fresh id
overwrites storage byte 2 (previously 9) with the id's first byte 8. -/
theorem c5_counterexample :
    (findID false (mkStore 63) ⟨8, 8, 8, 8⟩).1 = false ∧
    (writeID false (mkStore 63) ⟨8, 8, 8, 8⟩).2 2 = 8 ∧
    mkStore 63 2 = 9 := by
  decide

/-- C5 witness: each component of the amended statement applied at
concrete inputs. -/
theorem c5_witness :
    (writeID false (mkStore 3) ⟨78, 1, 1, 1⟩).2 3 = mkStore 3 3 ∧
    (deleteID false (mkStore 3) ⟨1, 7, 7, 7⟩).2 4 = mkStore 3 4 ∧
    runtimeWipe (mkStore 3) 2 = mkStore 3 2 ∧
    runtimeWipe (mkStore 3) 1 = 0 ∧
    LoopOut.eeOf (dispatch wQuiet 0 s1 ⟨5, 5, 5, 5⟩).1 = s1.ee :=
  ⟨c5_master_bytes_preserved.1 false (mkStore 3) ⟨78, 1, 1, 1⟩ 3 (by decide) (by decide)
      (by decide),
    c5_master_bytes_preserved.2.1 false (mkStore 3) ⟨1, 7, 7, 7⟩ 4 (by decide) (by decide)
      (by decide),
    c5_master_bytes_preserved.2.2.1 (mkStore 3) 2 (by decide),
    c5_master_bytes_preserved.2.2.2.1 (mkStore 3),
    c5_master_bytes_preserved.2.2.2.2 wQuiet 0 s1 ⟨5, 5, 5, 5⟩ rfl (by decide)⟩

/-! ## C6: the master scan in Normal mode -/

/-- C6 (amended to a master credential whose first byte is nonzero): in
Normal mode, dispatching a scan of the master credential sets program
mode, emits only the mode-change announcement, and performs no Append,
no RemoveAt, no access grant and no door actuation — for every store
contents, including an empty store. -/
theorem c6_master_scan_enters_program (w : World) (fuel : Nat) (s : St)
    (hpm : s.pm = false) (hb : s.master.b0 ≠ 0) :
    (dispatch w fuel s s.master).1 = LoopOut.done { s with pm := true, mt := true } ∧
    (dispatch w fuel s s.master).2 = [Ev.enterProgram] ∧
    (∀ c, Ev.evAppend c ∉ (dispatch w fuel s s.master).2) ∧
    (∀ c, Ev.evRemove c ∉ (dispatch w fuel s s.master).2) ∧
    Ev.evGrant ∉ (dispatch w fuel s s.master).2 ∧
    Ev.setOpen true ∉ (dispatch w fuel s s.master).2 := by
  have hm : isMaster s.mt s.master s.master = true := by
    rw [isMaster, checkTwo_of_ne_zero _ _ _ hb]
    simp
  refine ⟨?_, ?_, ?_, ?_, ?_, ?_⟩ <;> simp [dispatch, hpm, hm]

/-- C6 witness: the amended statement in the concrete state `s1`
(Normal mode, empty store, master `⟨1, 2, 3, 4⟩`). -/
theorem c6_witness :
    (s1.pm = false ∧ s1.master.b0 ≠ 0 ∧ s1.ee 0 = 0) ∧
    ((dispatch wQuiet 0 s1 s1.master).1 = LoopOut.done { s1 with pm := true, mt := true } ∧
      (dispatch wQuiet 0 s1 s1.master).2 = [Ev.enterProgram] ∧
      (∀ c, Ev.evAppend c ∉ (dispatch wQuiet 0 s1 s1.master).2) ∧
      (∀ c, Ev.evRemove c ∉ (dispatch wQuiet 0 s1 s1.master).2) ∧
      Ev.evGrant ∉ (dispatch wQuiet 0 s1 s1.master).2 ∧
      Ev.setOpen true ∉ (dispatch wQuiet 0 s1 s1.master).2) :=
  ⟨⟨rfl, by decide, rfl⟩, c6_master_scan_enters_program wQuiet 0 s1 rfl (by decide)⟩

/-- C6 counterexample: the claim as stated fails when the master
credential's first byte is zero.  In the reachable state `s0` (Normal
mode, comparator flag false, master `⟨0, 1, 2, 3⟩` as provisioned from a
scan), scanning the master does not enter Program mode: the comparator
treats it as no-match and the dispatch denies access instead. -/
theorem c6_counterexample :
    s0.pm = false ∧ s0.mt = false ∧ s0.master = ⟨0, 1, 2, 3⟩ ∧
    LoopOut.pmOf (dispatch wQuiet 0 s0 s0.master).1 = false ∧
    (dispatch wQuiet 0 s0 s0.master).2 = [Ev.evDeny] := by
  refine ⟨rfl, rfl, rfl, ?_, ?_⟩ <;> decide

/-! ## Motor-interlock machinery -/

theorem runMotors_append (t2 : List Ev) :
    ∀ (t1 : List Ev) (p : Bool × Bool),
      runMotors p (t1 ++ t2) = runMotors (runMotors p t1) t2 := by
  intro t1
  induction t1 with
  | nil => intro p; rfl
  | cons e t ih =>
    intro p
    simp only [List.cons_append, runMotors]
    exact ih (stepMotors p e)

theorem mutexFrom_append (t2 : List Ev) :
    ∀ (t1 : List Ev) (p : Bool × Bool),
      mutexFrom p (t1 ++ t2) = (mutexFrom p t1 && mutexFrom (runMotors p t1) t2) := by
  intro t1
  induction t1 with
  | nil =>
    intro p
    simp only [List.nil_append, mutexFrom, runMotors]
    cases t2 with
    | nil => simp [mutexFrom]
    | cons e t =>
      simp only [mutexFrom]
      cases hp : (p.1 && p.2) <;> simp
  | cons e t ih =>
    intro p
    simp only [List.cons_append, mutexFrom, runMotors, List.append_eq]
    rw [ih, Bool.and_assoc]

theorem stepMotors_of_noMotor (p : Bool × Bool) (ev : Ev) (h : noMotorEv ev = true) :
    stepMotors p ev = p := by
  cases ev <;> simp_all [noMotorEv, stepMotors]

theorem runMotors_of_noMotor :
    ∀ (tr : List Ev), tr.all noMotorEv = true → ∀ p, runMotors p tr = p := by
  intro tr
  induction tr with
  | nil => intro _ p; rfl
  | cons e t ih =>
    intro h p
    simp only [List.all_cons, Bool.and_eq_true] at h
    simp only [runMotors, stepMotors_of_noMotor p e h.1]
    exact ih h.2 p

theorem mutexFrom_of_noMotor :
    ∀ (tr : List Ev), tr.all noMotorEv = true →
      ∀ p, (p.1 && p.2) = false → mutexFrom p tr = true := by
  intro tr
  induction tr with
  | nil =>
    intro _ p hp
    simp [mutexFrom, hp]
  | cons e t ih =>
    intro h p hp
    simp only [List.all_cons, Bool.and_eq_true] at h
    simp only [mutexFrom, stepMotors_of_noMotor p e h.1, hp, Bool.not_false, Bool.true_and]
    exact ih h.2 p hp

theorem motorOk_append (t1 t2 : List Ev) (h1 : motorOk t1) (h2 : motorOk t2) :
    motorOk (t1 ++ t2) := by
  unfold motorOk at *
  rw [mutexFrom_append, runMotors_append, h1.2, h1.1, h2.1, h2.2]
  exact ⟨rfl, rfl⟩

theorem motorOk_of_noMotor (tr : List Ev) (h : tr.all noMotorEv = true) : motorOk tr :=
  ⟨mutexFrom_of_noMotor tr h (false, false) rfl, runMotors_of_noMotor tr h (false, false)⟩

theorem motorOk_nil : motorOk [] := ⟨rfl, rfl⟩

theorem motorOk_funopenDoorTr : motorOk funopenDoorTr := by
  constructor <;> rfl

theorem closeWait_noMotor (w : World) :
    ∀ fuel di, ((closeWait w di fuel).2.1).all noMotorEv = true := by
  intro fuel
  induction fuel with
  | zero => intro di; rfl
  | succ n ih =>
    intro di
    cases h : clearBandB (w.dist di)
    · simp only [closeWait, h, Bool.false_eq_true, if_false, List.all_cons, Bool.and_eq_true]
      exact ⟨rfl, rfl, ih (di + 1)⟩
    · simp only [closeWait, h, if_true]
      rfl

theorem checkSmokeTr_noMotor (w : World) :
    ∀ rem si, ((checkSmokeTr w si rem).2.1).all noMotorEv = true := by
  intro rem
  induction rem with
  | zero => intro si; rfl
  | succ n ih =>
    intro si
    by_cases h : 100 < w.smoke si
    · simp only [checkSmokeTr, if_pos h]
      rfl
    · simp only [checkSmokeTr, if_neg h, List.all_cons, Bool.and_eq_true]
      exact ⟨rfl, ih (si + 1)⟩

theorem motorOk_closeDoorTr (w : World) (di fuel : Nat) :
    motorOk (closeDoorTr w di fuel).2.1 := by
  have hcw := motorOk_of_noMotor _ (closeWait_noMotor w fuel di)
  unfold closeDoorTr
  cases h : (closeWait w di fuel).2.2 <;> simp only [h, Bool.false_eq_true, if_false, if_true]
  · have : Ev.wait 2000 :: (closeWait w di fuel).2.1 =
        [Ev.wait 2000] ++ (closeWait w di fuel).2.1 := rfl
    rw [this]
    exact motorOk_append _ _ (motorOk_of_noMotor _ rfl) hcw
  · have : Ev.wait 2000 :: (closeWait w di fuel).2.1 ++
        [Ev.setClose true, Ev.wait 10200, Ev.setClose false] =
        [Ev.wait 2000] ++ ((closeWait w di fuel).2.1 ++
          [Ev.setClose true, Ev.wait 10200, Ev.setClose false]) := by
      simp
    rw [this]
    refine motorOk_append _ _ (motorOk_of_noMotor _ rfl) (motorOk_append _ _ hcw ⟨rfl, rfl⟩)

theorem motorOk_grantTr (w : World) (di fuel : Nat) :
    motorOk (grantTr (closeDoorTr w di fuel).2.1) := by
  unfold grantTr
  have h1 : Ev.evGrant :: Ev.setRc true :: funopenDoorTr ++
      [Ev.setRc false, Ev.wait 10000] ++ (closeDoorTr w di fuel).2.1 =
      ([Ev.evGrant, Ev.setRc true] ++ funopenDoorTr ++ [Ev.setRc false, Ev.wait 10000]) ++
        (closeDoorTr w di fuel).2.1 := by
    simp
  rw [h1]
  refine motorOk_append _ _ ?_ (motorOk_closeDoorTr w di fuel)
  refine motorOk_append _ _ (motorOk_append _ _ (motorOk_of_noMotor _ rfl)
    motorOk_funopenDoorTr) (motorOk_of_noMotor _ rfl)

theorem motorOk_pollLoop (w : World) :
    ∀ fuel s, motorOk (pollLoop w s fuel).2 := by
  intro fuel
  induction fuel with
  | zero => intro s; exact motorOk_nil
  | succ n ih =>
    intro s
    have hev1 : motorOk (Ev.pollScan (w.scan s.pi) :: (checkSmokeTr w s.si 4).2.1) :=
      motorOk_of_noMotor _ (by
        simp only [List.all_cons, Bool.and_eq_true]
        exact ⟨rfl, checkSmokeTr_noMotor w 4 s.si⟩)
    have hwait : motorOk [Ev.wait 10000] := motorOk_of_noMotor _ rfl
    simp only [pollLoop]
    repeat' split
    all_goals
      first
      | exact motorOk_append _ _ hev1 motorOk_funopenDoorTr
      | exact hev1
      | exact motorOk_append _ _ hev1 (ih _)
      | exact motorOk_append _ _ (motorOk_append _ _ hev1 hwait) (ih _)
      | exact motorOk_append _ _ hev1 hwait
      | exact motorOk_append _ _ (motorOk_append _ _ (motorOk_append _ _
          (motorOk_append _ _ hev1 motorOk_funopenDoorTr) hwait)
          (motorOk_closeDoorTr w _ n)) (ih _)
      | exact motorOk_append _ _ (motorOk_append _ _ (motorOk_append _ _
          (motorOk_append _ _ (motorOk_append _ _ hev1 motorOk_funopenDoorTr) hwait)
          (motorOk_closeDoorTr w _ n)) hwait) (ih _)
      | exact motorOk_append _ _ (motorOk_append _ _ (motorOk_append _ _
          (motorOk_append _ _ hev1 motorOk_funopenDoorTr) hwait)
          (motorOk_closeDoorTr w _ n)) hwait
      | exact motorOk_append _ _ (motorOk_append _ _ (motorOk_append _ _
          hev1 motorOk_funopenDoorTr) hwait) (motorOk_closeDoorTr w _ n)

theorem motorOk_dispatch (w : World) (fuel : Nat) (s : St) (c : Card) :
    motorOk (dispatch w fuel s c).2 := by
  simp only [dispatch]
  repeat' split
  all_goals
    first
    | exact motorOk_of_noMotor _ rfl
    | exact motorOk_grantTr w s.di fuel

theorem motorOk_afterClose (w : World) (fuel : Nat) (s : St) :
    motorOk (afterClose w fuel s).2 := by
  simp only [afterClose]
  split
  all_goals
    first
    | exact motorOk_pollLoop w fuel s
    | exact motorOk_append _ _ (motorOk_pollLoop w fuel s) (motorOk_dispatch w fuel _ _)

theorem motorOk_loopIter (w : World) (s : St) (fuel : Nat) :
    motorOk (loopIter w s fuel).2 := by
  have hpre : motorOk [Ev.setOpen false, Ev.setClose false, Ev.setRc false,
      Ev.sampleDist (w.dist s.di)] := ⟨rfl, rfl⟩
  simp only [loopIter]
  repeat' split
  all_goals
    first
    | exact motorOk_append _ _ (motorOk_append _ _ hpre (motorOk_closeDoorTr w _ fuel))
        (motorOk_afterClose w fuel _)
    | exact motorOk_append _ _ hpre (motorOk_closeDoorTr w _ fuel)
    | exact motorOk_append _ _ hpre (motorOk_afterClose w fuel _)

/-! ## C8: motor outputs are mutually exclusive -/

/-- C8: over every loop iteration started with both motor outputs off —
the state in which `setup()` leaves them and in which every iteration
ends — the "open" and "close" outputs are never energized
simultaneously at any point of the event trace, the iteration ends with
both off, and the first three events of every cycle explicitly clear
the open output, the close output and the relay before any actuation. -/
theorem c8_motor_interlock (w : World) (s : St) (fuel : Nat) :
    mutexFrom (false, false) (loopIter w s fuel).2 = true ∧
    runMotors (false, false) (loopIter w s fuel).2 = (false, false) ∧
    (loopIter w s fuel).2.take 3 =
      [Ev.setOpen false, Ev.setClose false, Ev.setRc false] := by
  refine ⟨(motorOk_loopIter w s fuel).1, (motorOk_loopIter w s fuel).2, ?_⟩
  simp only [loopIter]
  repeat' split
  all_goals rfl

/-! ## C7: the close cycle and its clearance wait -/

theorem closeWait_no_setClose (w : World) :
    ∀ fuel di b, Ev.setClose b ∉ (closeWait w di fuel).2.1 := by
  intro fuel
  induction fuel with
  | zero => intro di b h; exact absurd h (List.not_mem_nil _)
  | succ n ih =>
    intro di b
    cases h : clearBandB (w.dist di)
    · simp only [closeWait, h, Bool.false_eq_true, if_false, List.mem_cons, not_or]
      exact ⟨by simp, by simp, ih (di + 1) b⟩
    · simp [closeWait, h]

theorem closeWait_found_clear (w : World) :
    ∀ fuel di, (closeWait w di fuel).2.2 = true →
      ∃ v, Ev.sampleDist v ∈ (closeWait w di fuel).2.1 ∧ clearBandB v = true := by
  intro fuel
  induction fuel with
  | zero => intro di h; exact absurd h (by simp [closeWait])
  | succ n ih =>
    intro di
    cases h : clearBandB (w.dist di)
    · simp only [closeWait, h, Bool.false_eq_true, if_false]
      intro hc
      obtain ⟨v, hv1, hv2⟩ := ih (di + 1) hc
      exact ⟨v, by simp [List.mem_cons, hv1], hv2⟩
    · intro _
      exact ⟨w.dist di, by simp [closeWait, h], h⟩

theorem closeWait_never_clear (w : World)
    (hall : ∀ n, clearBandB (w.dist n) = false) :
    ∀ fuel di, (closeWait w di fuel).2.2 = false := by
  intro fuel
  induction fuel with
  | zero => intro di; rfl
  | succ n ih =>
    intro di
    simp only [closeWait, hall di, Bool.false_eq_true, if_false]
    exact ih (di + 1)

theorem closeWait_clear_within_fuel (w : World) :
    ∀ fuel di k, k < fuel → clearBandB (w.dist (di + k)) = true →
      (closeWait w di fuel).2.2 = true := by
  intro fuel
  induction fuel with
  | zero => intro di k hk _; omega
  | succ n ih =>
    intro di k hk hc
    cases h : clearBandB (w.dist di)
    · simp only [closeWait, h, Bool.false_eq_true, if_false]
      have hk0 : k ≠ 0 := by
        intro h0
        subst h0
        rw [Nat.add_zero] at hc
        rw [h] at hc
        exact Bool.noConfusion hc
      refine ih (di + 1) (k - 1) (by omega) ?_
      rw [show di + 1 + (k - 1) = di + k from by omega]
      exact hc
    · simp [closeWait, h]

/-- C7: `closeDoor` (a) never energizes the close output when every
distance reading is outside the clear band, however long it runs — the
wait is unbounded; (b) whenever it does reach the dwell, its trace is
the lead delay, then samples containing an in-band reading and no close
actuation, then exactly "energize close, dwell 10200 ms, de-energize",
with nothing afterwards; (c) an in-band reading within the allotted
fuel guarantees the dwell is reached. -/
theorem c7_close_cycle (w : World) (di fuel : Nat) :
    ((∀ n, clearBandB (w.dist n) = false) →
      (closeDoorTr w di fuel).2.2 = false ∧
      Ev.setClose true ∉ (closeDoorTr w di fuel).2.1) ∧
    ((closeDoorTr w di fuel).2.2 = true →
      ∃ pre, (closeDoorTr w di fuel).2.1 =
          Ev.wait 2000 :: pre ++ [Ev.setClose true, Ev.wait 10200, Ev.setClose false] ∧
        (∃ v, Ev.sampleDist v ∈ pre ∧ clearBandB v = true) ∧
        Ev.setClose true ∉ pre) ∧
    (∀ k, k < fuel → clearBandB (w.dist (di + k)) = true →
      (closeDoorTr w di fuel).2.2 = true) := by
  refine ⟨?_, ?_, ?_⟩
  · intro hall
    have hcw := closeWait_never_clear w hall fuel di
    constructor
    · simp [closeDoorTr, hcw]
    · simp only [closeDoorTr, hcw, Bool.false_eq_true, if_false]
      intro hmem
      rcases List.mem_cons.mp hmem with h1 | h1
      · exact Ev.noConfusion h1
      · exact closeWait_no_setClose w fuel di true h1
  · intro hdone
    have hcw : (closeWait w di fuel).2.2 = true := by
      cases hcc : (closeWait w di fuel).2.2
      · simp [closeDoorTr, hcc] at hdone
      · rfl
    refine ⟨(closeWait w di fuel).2.1, ?_, closeWait_found_clear w fuel di hcw,
      closeWait_no_setClose w fuel di true⟩
    simp [closeDoorTr, hcw]
  · intro k hk hc
    have hcw := closeWait_clear_within_fuel w fuel di k hk hc
    simp [closeDoorTr, hcw]

/-- C7 witness: with a sensor stuck at 30 the dwell is never reached and
close is never energized; with a sensor reading 15 the full dwell trace
occurs. -/
theorem c7_witness :
    ((closeDoorTr wQuiet 0 3).2.2 = false ∧
      Ev.setClose true ∉ (closeDoorTr wQuiet 0 3).2.1) ∧
    (∃ pre, (closeDoorTr wClear 0 3).2.1 =
        Ev.wait 2000 :: pre ++ [Ev.setClose true, Ev.wait 10200, Ev.setClose false] ∧
      (∃ v, Ev.sampleDist v ∈ pre ∧ clearBandB v = true) ∧
      Ev.setClose true ∉ pre) ∧
    (closeDoorTr wClear 0 3).2.2 = true :=
  ⟨(c7_close_cycle wQuiet 0 3).1 (fun _ => rfl),
    (c7_close_cycle wClear 0 3).2.1 (by decide),
    (c7_close_cycle wClear 0 3).2.2 0 (by omega) rfl⟩

/-! ## C9: smoke trip -/

theorem closeWait_no_smoke (w : World) :
    ∀ fuel di v, Ev.sampleSmoke v ∉ (closeWait w di fuel).2.1 := by
  intro fuel
  induction fuel with
  | zero => intro di v h; exact absurd h (List.not_mem_nil _)
  | succ n ih =>
    intro di v
    cases h : clearBandB (w.dist di)
    · simp only [closeWait, h, Bool.false_eq_true, if_false, List.mem_cons, not_or]
      exact ⟨by simp, by simp, ih (di + 1) v⟩
    · simp [closeWait, h]

theorem closeDoorTr_no_smoke (w : World) (di fuel : Nat) (v : Int) :
    Ev.sampleSmoke v ∉ (closeDoorTr w di fuel).2.1 := by
  have hcw := closeWait_no_smoke w fuel di v
  unfold closeDoorTr
  cases h : (closeWait w di fuel).2.2 <;>
    simp only [h, Bool.false_eq_true, if_false, if_true, List.mem_cons, List.mem_append,
      not_or] <;>
    simp_all

theorem funopenDoorTr_no_smoke (v : Int) : Ev.sampleSmoke v ∉ funopenDoorTr := by
  simp [funopenDoorTr]

theorem checkSmokeTr_no_trip_le (w : World) :
    ∀ rem si, (checkSmokeTr w si rem).2.2 = false →
      ∀ v, Ev.sampleSmoke v ∈ (checkSmokeTr w si rem).2.1 → ¬100 < v := by
  intro rem
  induction rem with
  | zero => intro si _ v hm; exact absurd hm (List.not_mem_nil _)
  | succ n ih =>
    intro si htr v hm
    by_cases h : 100 < w.smoke si
    · simp only [checkSmokeTr, if_pos h] at htr
      exact Bool.noConfusion htr
    · simp only [checkSmokeTr, if_neg h] at htr hm
      rcases List.mem_cons.mp hm with h1 | h1
      · intro hv
        apply h
        have : v = w.smoke si := by
          injection h1
        omega
      · exact ih (si + 1) htr v h1

theorem checkSmokeTr_trip_shape (w : World) :
    ∀ rem si, (checkSmokeTr w si rem).2.2 = true →
      ∃ pre u, 100 < u ∧
        (checkSmokeTr w si rem).2.1 = pre ++ [Ev.sampleSmoke u] := by
  intro rem
  induction rem with
  | zero => intro si h; exact absurd h (by simp [checkSmokeTr])
  | succ n ih =>
    intro si htr
    by_cases h : 100 < w.smoke si
    · exact ⟨[], w.smoke si, h, by simp [checkSmokeTr, if_pos h]⟩
    · simp only [checkSmokeTr, if_neg h] at htr ⊢
      obtain ⟨pre, u, hu, hsh⟩ := ih (si + 1) htr
      exact ⟨Ev.sampleSmoke (w.smoke si) :: pre, u, hu, by simp [hsh]⟩

theorem closeWait_noStore (w : World) :
    ∀ fuel di, ((closeWait w di fuel).2.1).all noStoreEv = true := by
  intro fuel
  induction fuel with
  | zero => intro di; rfl
  | succ n ih =>
    intro di
    cases h : clearBandB (w.dist di)
    · simp only [closeWait, h, Bool.false_eq_true, if_false, List.all_cons, Bool.and_eq_true]
      exact ⟨rfl, rfl, ih (di + 1)⟩
    · simp only [closeWait, h, if_true]
      rfl

theorem checkSmokeTr_noStore (w : World) :
    ∀ rem si, ((checkSmokeTr w si rem).2.1).all noStoreEv = true := by
  intro rem
  induction rem with
  | zero => intro si; rfl
  | succ n ih =>
    intro si
    by_cases h : 100 < w.smoke si
    · simp only [checkSmokeTr, if_pos h]
      rfl
    · simp only [checkSmokeTr, if_neg h, List.all_cons, Bool.and_eq_true]
      exact ⟨rfl, ih (si + 1)⟩

theorem closeDoorTr_noStore (w : World) (di fuel : Nat) :
    ((closeDoorTr w di fuel).2.1).all noStoreEv = true := by
  have hcw := closeWait_noStore w fuel di
  unfold closeDoorTr
  cases h : (closeWait w di fuel).2.2 <;>
    simp only [h, Bool.false_eq_true, if_false, if_true, List.all_cons, List.all_append,
      Bool.and_eq_true] <;> simp_all [noStoreEv]

theorem pollLoop_noStore (w : World) :
    ∀ fuel s, ((pollLoop w s fuel).2).all noStoreEv = true := by
  intro fuel
  induction fuel with
  | zero => intro s; rfl
  | succ n ih =>
    intro s
    have h1 : ((checkSmokeTr w s.si 4).2.1).all noStoreEv = true :=
      checkSmokeTr_noStore w 4 s.si
    simp only [pollLoop]
    repeat' split
    all_goals
      simp [List.all_append, List.all_cons, h1, closeDoorTr_noStore, ih, noStoreEv,
        funopenDoorTr]

theorem all_noStore_not_mem (tr : List Ev) (h : tr.all noStoreEv = true) :
    (∀ c, Ev.evAppend c ∉ tr) ∧ (∀ c, Ev.evRemove c ∉ tr) ∧ Ev.evGrant ∉ tr := by
  rw [List.all_eq_true] at h
  refine ⟨fun c hc => ?_, fun c hc => ?_, fun hc => ?_⟩ <;>
    · have hx := h _ hc
      simp [noStoreEv] at hx

theorem pollLoop_smoke_trip (w : World) :
    ∀ fuel s v, Ev.sampleSmoke v ∈ (pollLoop w s fuel).2 → 100 < v →
      (∃ s2, (pollLoop w s fuel).1 = PollOut.halted s2) ∧
      ∃ pre u, 100 < u ∧
        (pollLoop w s fuel).2 = pre ++ Ev.sampleSmoke u :: funopenDoorTr := by
  intro fuel
  induction fuel with
  | zero =>
    intro s v hmem _
    exact absurd hmem (List.not_mem_nil _)
  | succ n ih =>
    intro s v hmem hv
    by_cases hsm : (checkSmokeTr w s.si 4).2.2 = true
    · obtain ⟨pre, u, hu, hsh⟩ := checkSmokeTr_trip_shape w 4 s.si hsm
      simp only [pollLoop, hsm, eq_self_iff_true, if_true]
      refine ⟨⟨_, rfl⟩, Ev.pollScan (w.scan s.pi) :: pre, u, hu, ?_⟩
      simp [hsh]
    · have hsm2 : (checkSmokeTr w s.si 4).2.2 = false := by
        cases hcc : (checkSmokeTr w s.si 4).2.2
        · rfl
        · exact absurd hcc hsm
      have hA : Ev.sampleSmoke v ∉ (checkSmokeTr w s.si 4).2.1 :=
        fun h => checkSmokeTr_no_trip_le w 4 s.si hsm2 v h hv
      have hB : Ev.sampleSmoke v ∉ funopenDoorTr := funopenDoorTr_no_smoke v
      have hC : Ev.sampleSmoke v ∉ (closeDoorTr w s.di n).2.1 :=
        closeDoorTr_no_smoke w s.di n v
      simp only [pollLoop, hsm2, Bool.false_eq_true, if_false] at hmem ⊢
      cases hob : w.openBtn s.pi <;>
        cases hcd : (closeDoorTr w s.di n).2.2 <;>
        cases hwb : w.wipeBtn s.pi <;>
        cases hwh : w.wipeHold s.pi <;>
        cases hsc : w.scan s.pi <;>
        simp only [hob, hcd, hwb, hwh, hsc, Bool.false_and, Bool.true_and, Bool.not_true,
          Bool.not_false, Bool.false_eq_true, if_false, eq_self_iff_true, if_true]
          at hmem ⊢ <;>
        first
        | (refine absurd hmem ?_
           simp [hA, hB, hC]
           done)
        | (simp [hA, hB, hC] at hmem
           obtain ⟨⟨s2, hres⟩, pre, u, hu, htr⟩ := ih _ v hmem hv
           exact ⟨⟨s2, hres⟩, _, u, hu, by rw [htr, ← List.append_assoc]⟩)

theorem dispatch_no_smoke (w : World) (fuel : Nat) (s : St) (c : Card) (v : Int) :
    Ev.sampleSmoke v ∉ (dispatch w fuel s c).2 := by
  have hC := closeDoorTr_no_smoke w s.di fuel v
  simp only [dispatch]
  repeat' split
  all_goals simp [grantTr, funopenDoorTr, hC]

theorem afterClose_smoke_trip (w : World) (fuel : Nat) (s : St) (v : Int)
    (hmem : Ev.sampleSmoke v ∈ (afterClose w fuel s).2) (hv : 100 < v) :
    (∃ s2, (afterClose w fuel s).1 = LoopOut.halted s2) ∧
    ((afterClose w fuel s).2).all noStoreEv = true ∧
    ∃ pre u, 100 < u ∧
      (afterClose w fuel s).2 = pre ++ Ev.sampleSmoke u :: funopenDoorTr := by
  simp only [afterClose] at hmem ⊢
  cases hp : (pollLoop w s fuel).1 <;> simp only [hp] at hmem ⊢
  · rcases List.mem_append.mp hmem with h1 | h1
    · obtain ⟨⟨s3, hres⟩, _⟩ := pollLoop_smoke_trip w fuel s v h1 hv
      rw [hp] at hres
      exact absurd hres (by simp)
    · exact absurd h1 (dispatch_no_smoke w fuel _ _ v)
  · obtain ⟨_, pre, u, hu, htr⟩ := pollLoop_smoke_trip w fuel s v hmem hv
    exact ⟨⟨_, rfl⟩, pollLoop_noStore w fuel s, pre, u, hu, htr⟩
  · obtain ⟨⟨s3, hres⟩, _⟩ := pollLoop_smoke_trip w fuel s v hmem hv
    rw [hp] at hres
    exact absurd hres (by simp)

/-- C9: whenever the safety poll takes a hazard sample above the
threshold — in Normal or Program mode, i.e. for every controller state —
the iteration ends in the terminal halted outcome, its trace ends with
that sample immediately followed by the forced `funopenDoor` open cycle
and nothing else, and no Append, RemoveAt or access grant is processed
anywhere in the iteration. -/
theorem c9_smoke_trip_halts (w : World) (s : St) (fuel : Nat) (v : Int)
    (hmem : Ev.sampleSmoke v ∈ (loopIter w s fuel).2) (hv : 100 < v) :
    (∃ s2, (loopIter w s fuel).1 = LoopOut.halted s2) ∧
    (∀ c, Ev.evAppend c ∉ (loopIter w s fuel).2) ∧
    (∀ c, Ev.evRemove c ∉ (loopIter w s fuel).2) ∧
    Ev.evGrant ∉ (loopIter w s fuel).2 ∧
    ∃ pre u, 100 < u ∧
      (loopIter w s fuel).2 = pre ++ Ev.sampleSmoke u :: funopenDoorTr := by
  cases hcb : clearBandB (w.dist s.di)
  · simp only [loopIter, hcb, Bool.false_eq_true, if_false] at hmem ⊢
    have hmem2 : Ev.sampleSmoke v ∈ (afterClose w fuel { s with di := s.di + 1 }).2 := by
      rcases List.mem_append.mp hmem with h1 | h1
      · simp at h1
      · exact h1
    obtain ⟨⟨s2, hres⟩, hns, pre, u, hu, htr⟩ :=
      afterClose_smoke_trip w fuel _ v hmem2 hv
    have hall : (([Ev.setOpen false, Ev.setClose false, Ev.setRc false,
        Ev.sampleDist (w.dist s.di)] ++
        (afterClose w fuel { s with di := s.di + 1 }).2).all noStoreEv) = true := by
      rw [List.all_append]
      rw [hns]
      rfl
    obtain ⟨hA, hR, hG⟩ := all_noStore_not_mem _ hall
    exact ⟨⟨s2, hres⟩, hA, hR, hG, _, u, hu, by rw [htr, ← List.append_assoc]⟩
  · simp only [loopIter, hcb, eq_self_iff_true, if_true] at hmem ⊢
    cases hcd : (closeDoorTr w (s.di + 1) fuel).2.2 <;>
      simp only [hcd, Bool.false_eq_true, if_false, eq_self_iff_true, if_true] at hmem ⊢
    · refine absurd hmem ?_
      have hC := closeDoorTr_no_smoke w (s.di + 1) fuel v
      simp [hC]
    · have hmem2 : Ev.sampleSmoke v ∈
          (afterClose w fuel { s with di := (closeDoorTr w (s.di + 1) fuel).1 }).2 := by
        rcases List.mem_append.mp hmem with h1 | h1
        · rcases List.mem_append.mp h1 with h2 | h2
          · simp at h2
          · exact absurd h2 (closeDoorTr_no_smoke w (s.di + 1) fuel v)
        · exact h1
      obtain ⟨⟨s2, hres⟩, hns, pre, u, hu, htr⟩ :=
        afterClose_smoke_trip w fuel _ v hmem2 hv
      have hall : ((([Ev.setOpen false, Ev.setClose false, Ev.setRc false,
          Ev.sampleDist (w.dist s.di)] ++ (closeDoorTr w (s.di + 1) fuel).2.1) ++
          (afterClose w fuel
            { s with di := (closeDoorTr w (s.di + 1) fuel).1 }).2).all noStoreEv) = true := by
        rw [List.all_append, List.all_append, hns, closeDoorTr_noStore w (s.di + 1) fuel]
        rfl
      obtain ⟨hA, hR, hG⟩ := all_noStore_not_mem _ hall
      exact ⟨⟨s2, hres⟩, hA, hR, hG, _, u, hu, by rw [htr, ← List.append_assoc]⟩

/-- C9 witness: with the smoke sensor reading 200, a single iteration in
the quiet environment takes the forced-open path and halts. -/
theorem c9_witness :
    (Ev.sampleSmoke 200 ∈ (loopIter wSmoke s1 1).2 ∧ (100 : Int) < 200) ∧
    ((∃ s2, (loopIter wSmoke s1 1).1 = LoopOut.halted s2) ∧
      (∀ c, Ev.evAppend c ∉ (loopIter wSmoke s1 1).2) ∧
      (∀ c, Ev.evRemove c ∉ (loopIter wSmoke s1 1).2) ∧
      Ev.evGrant ∉ (loopIter wSmoke s1 1).2 ∧
      ∃ pre u, 100 < u ∧
        (loopIter wSmoke s1 1).2 = pre ++ Ev.sampleSmoke u :: funopenDoorTr) :=
  ⟨⟨by decide, by decide⟩, c9_smoke_trip_halts wSmoke s1 1 200 (by decide) (by decide)⟩

/-! ## C10: checkClose runs first in every iteration -/

theorem pollLoop_head (w : World) (s : St) (fuel : Nat) (hf : 0 < fuel) :
    (pollLoop w s fuel).2.head? = some (Ev.pollScan (w.scan s.pi)) := by
  cases fuel with
  | zero => omega
  | succ n =>
    simp only [pollLoop]
    repeat' split
    all_goals rfl

theorem afterClose_head (w : World) (fuel : Nat) (s : St) (hf : 0 < fuel) :
    (afterClose w fuel s).2.head? = some (Ev.pollScan (w.scan s.pi)) := by
  have h := pollLoop_head w s fuel hf
  simp only [afterClose]
  cases hp : (pollLoop w s fuel).1 <;> simp only [hp]
  · cases hl : (pollLoop w s fuel).2 with
    | nil =>
      rw [hl] at h
      exact absurd h (by simp)
    | cons a t =>
      rw [hl] at h
      simp only [List.cons_append, List.head?_cons] at h ⊢
      exact h
  · exact h
  · exact h

/-- C10: every `loop()` iteration starts by clearing the outputs and then
taking exactly one distance reading, before any scan, button or hazard
polling; when that reading is strictly between 14 and 20 the full
`closeDoor` cycle trace follows immediately, and otherwise no event at
all occurs before the first reader poll. -/
theorem c10_checkClose_first (w : World) (s : St) (fuel : Nat) :
    ∃ rest,
      (loopIter w s fuel).2 =
        [Ev.setOpen false, Ev.setClose false, Ev.setRc false,
          Ev.sampleDist (w.dist s.di)] ++
        (if clearBandB (w.dist s.di) = true then (closeDoorTr w (s.di + 1) fuel).2.1
          else []) ++ rest ∧
      (clearBandB (w.dist s.di) = false →
        rest = [] ∨ ∃ r, rest.head? = some (Ev.pollScan r)) := by
  cases hcb : clearBandB (w.dist s.di)
  · refine ⟨(afterClose w fuel { s with di := s.di + 1 }).2, ?_, ?_⟩
    · simp [loopIter, hcb]
    · intro _
      cases fuel with
      | zero => exact Or.inl rfl
      | succ n =>
        exact Or.inr ⟨_, afterClose_head w (n + 1) _ (Nat.succ_pos n)⟩
  · cases hcd : (closeDoorTr w (s.di + 1) fuel).2.2
    · refine ⟨[], ?_, ?_⟩
      · simp [loopIter, hcb, hcd]
      · intro hfalse
        exact Bool.noConfusion hfalse
    · refine ⟨(afterClose w fuel
        { s with di := (closeDoorTr w (s.di + 1) fuel).1 }).2, ?_, ?_⟩
      · simp [loopIter, hcb, hcd]
      · intro hfalse
        exact Bool.noConfusion hfalse

/-- C10 witness: the decomposition at a concrete state and environment
whose first distance reading is 30 (outside the clear band). -/
theorem c10_witness :
    ∃ rest,
      (loopIter wQuiet s1 1).2 =
        [Ev.setOpen false, Ev.setClose false, Ev.setRc false,
          Ev.sampleDist (wQuiet.dist s1.di)] ++
        (if clearBandB (wQuiet.dist s1.di) = true then (closeDoorTr wQuiet (s1.di + 1) 1).2.1
          else []) ++ rest ∧
      (clearBandB (wQuiet.dist s1.di) = false →
        rest = [] ∨ ∃ r, rest.head? = some (Ev.pollScan r)) :=
  c10_checkClose_first wQuiet s1 1
